import Mathlib

/-!
Verification of the JWT decode-and-verify core of `src/tools/JWTDecoder.tsx`.

The embedding models:
* the JSON value space and the `JSON.parse` builtin (numbers are modelled as
  integers, which covers all inputs exercised here; fractional and exponent
  number syntax is rejected by the model parser),
* the `atob` builtin (WHATWG forgiving-base64 decode) and the
  `decodeURIComponent(escape(...))` idiom, which amounts to strict UTF-8
  decoding of the raw bytes,
* `base64URLDecode`, `decodeToken`, the expiry check, `parseAndVerifyJwks`
  (with the external `jose` library's `jwtVerify`/`createLocalJWKSet`
  modelled from its documented behaviour, the cryptographic signature check
  being an abstract oracle), and
* `formatPayloadDisplay` over a small mutable-object heap, so that the
  shallow-copy-then-annotate behaviour of the source is observable.
-/

/-- JSON values as produced by `JSON.parse`.  Numbers are modelled as
integers: every numeric value exercised by the claims (epoch seconds,
identifiers) is an integer. -/
inductive Json where
  | null : Json
  | bool : Bool → Json
  | num : Int → Json
  | str : String → Json
  | arr : List Json → Json
  | obj : List (String × Json) → Json

/-- Property access `j.k` on a parsed JSON value: on objects the later
binding wins (as in JavaScript object construction); on every other value
the access yields `undefined` (`none`).  (Accessing a property of `null`
throws a TypeError in JavaScript; in `parseAndVerifyJwks` that throw lands
in the same catch-all as a missing `keys` field, so `none` is faithful for
the code paths modelled here.) -/
def Json.getField (j : Json) (k : String) : Option Json :=
  match j with
  | .obj fs => fs.foldl (fun acc p => if p.1 = k then some p.2 else acc) none
  | _ => none

/-- JavaScript truthiness of a JSON value. -/
def jsTruthy : Json → Bool
  | .null => false
  | .bool b => b
  | .num n => n != 0
  | .str s => s ≠ ""
  | .arr _ => true
  | .obj _ => true

/-- Whitespace accepted by `JSON.parse`. -/
def isJsonWs (c : Char) : Bool :=
  c = ' ' || c = '\t' || c = '\n' || c = '\r'

/-- Hexadecimal digit value, for `\uXXXX` string escapes. -/
def hexVal (c : Char) : Option Nat :=
  if '0' ≤ c ∧ c ≤ '9' then some (c.toNat - '0'.toNat)
  else if 'a' ≤ c ∧ c ≤ 'f' then some (c.toNat - 'a'.toNat + 10)
  else if 'A' ≤ c ∧ c ≤ 'F' then some (c.toNat - 'A'.toNat + 10)
  else none

/-- Build a `Char` from a scalar value, failing on invalid scalars. -/
def charOfNat? (n : Nat) : Option Char :=
  if h : n.isValidChar then some (Char.ofNatAux n h) else none

/-- Parse the remainder of a JSON string literal (after the opening quote).
Handles the JSON escapes including `\uXXXX` with surrogate pairs; lone
surrogates (legal in JavaScript strings but not representable as Unicode
scalar values) are rejected by the model. -/
def parseStringRest : List Char → Option (List Char × List Char)
  | [] => none
  | '"' :: r => some ([], r)
  | '\\' :: e :: r =>
    match e with
    | '"' => (parseStringRest r).map (fun p => ('"' :: p.1, p.2))
    | '\\' => (parseStringRest r).map (fun p => ('\\' :: p.1, p.2))
    | '/' => (parseStringRest r).map (fun p => ('/' :: p.1, p.2))
    | 'b' => (parseStringRest r).map (fun p => ('\x08' :: p.1, p.2))
    | 'f' => (parseStringRest r).map (fun p => ('\x0c' :: p.1, p.2))
    | 'n' => (parseStringRest r).map (fun p => ('\n' :: p.1, p.2))
    | 'r' => (parseStringRest r).map (fun p => ('\r' :: p.1, p.2))
    | 't' => (parseStringRest r).map (fun p => ('\t' :: p.1, p.2))
    | 'u' =>
      match r with
      | h1 :: h2 :: h3 :: h4 :: r2 =>
        match hexVal h1, hexVal h2, hexVal h3, hexVal h4 with
        | some v1, some v2, some v3, some v4 =>
          let cu := ((v1 * 16 + v2) * 16 + v3) * 16 + v4
          if 0xD800 ≤ cu ∧ cu < 0xDC00 then
            match r2 with
            | '\\' :: 'u' :: g1 :: g2 :: g3 :: g4 :: r3 =>
              match hexVal g1, hexVal g2, hexVal g3, hexVal g4 with
              | some w1, some w2, some w3, some w4 =>
                let cu2 := ((w1 * 16 + w2) * 16 + w3) * 16 + w4
                if 0xDC00 ≤ cu2 ∧ cu2 < 0xE000 then
                  match charOfNat? (0x10000 + (cu - 0xD800) * 0x400 + (cu2 - 0xDC00)) with
                  | some c => (parseStringRest r3).map (fun p => (c :: p.1, p.2))
                  | none => none
                else none
              | _, _, _, _ => none
            | _ => none
          else
            match charOfNat? cu with
            | some c => (parseStringRest r2).map (fun p => (c :: p.1, p.2))
            | none => none
        | _, _, _, _ => none
      | _ => none
    | _ => none
  | c :: r =>
    if c.toNat ≥ 0x20 then (parseStringRest r).map (fun p => (c :: p.1, p.2)) else none

/-- Decimal digits to a natural number. -/
def digitsToNat (ds : List Char) : Nat :=
  ds.foldl (fun acc c => acc * 10 + (c.toNat - '0'.toNat)) 0

mutual

/-- Model of the `JSON.parse` value grammar (fuel-indexed recursion).
Numbers: an optional minus sign followed by decimal digits; fractional and
exponent forms are outside the integer-number model. -/
def parseVal (fuel : Nat) (s : List Char) : Option (Json × List Char) :=
  match fuel with
  | 0 => none
  | fuel + 1 =>
    match s.dropWhile isJsonWs with
    | 'n' :: 'u' :: 'l' :: 'l' :: r => some (.null, r)
    | 't' :: 'r' :: 'u' :: 'e' :: r => some (.bool true, r)
    | 'f' :: 'a' :: 'l' :: 's' :: 'e' :: r => some (.bool false, r)
    | '"' :: r => (parseStringRest r).map (fun p => (.str ⟨p.1⟩, p.2))
    | '[' :: r => parseArrRest fuel r
    | '\x7b' :: r => parseObjRest fuel r
    | '-' :: r =>
      let ds := r.takeWhile Char.isDigit
      if ds.isEmpty then none
      else some (.num (-(digitsToNat ds : Int)), r.dropWhile Char.isDigit)
    | c :: r =>
      if c.isDigit then
        some (.num (digitsToNat ((c :: r).takeWhile Char.isDigit)),
              (c :: r).dropWhile Char.isDigit)
      else none
    | [] => none

/-- Items of a JSON array after the opening bracket. -/
def parseArrRest (fuel : Nat) (s : List Char) : Option (Json × List Char) :=
  match fuel with
  | 0 => none
  | fuel + 1 =>
    match s.dropWhile isJsonWs with
    | ']' :: r => some (.arr [], r)
    | _ =>
      match parseVal fuel s with
      | none => none
      | some (v, r) => parseArrMore fuel [v] r

/-- Further items of a JSON array, accumulating in reverse order. -/
def parseArrMore (fuel : Nat) (acc : List Json) (s : List Char) :
    Option (Json × List Char) :=
  match fuel with
  | 0 => none
  | fuel + 1 =>
    match s.dropWhile isJsonWs with
    | ']' :: r => some (.arr acc.reverse, r)
    | ',' :: r =>
      match parseVal fuel r with
      | none => none
      | some (v, r2) => parseArrMore fuel (v :: acc) r2
    | _ => none

/-- Fields of a JSON object after the opening brace. -/
def parseObjRest (fuel : Nat) (s : List Char) : Option (Json × List Char) :=
  match fuel with
  | 0 => none
  | fuel + 1 =>
    match s.dropWhile isJsonWs with
    | '\x7d' :: r => some (.obj [], r)
    | '"' :: r =>
      match parseStringRest r with
      | none => none
      | some (k, r2) => parseField fuel [] ⟨k⟩ r2
    | _ => none

/-- Parse `: value` after a field name, then continue with the object. -/
def parseField (fuel : Nat) (acc : List (String × Json)) (k : String)
    (s : List Char) : Option (Json × List Char) :=
  match fuel with
  | 0 => none
  | fuel + 1 =>
    match s.dropWhile isJsonWs with
    | ':' :: r =>
      match parseVal fuel r with
      | none => none
      | some (v, r2) => parseObjMore fuel ((k, v) :: acc) r2
    | _ => none

/-- Further fields of a JSON object, accumulating in reverse order. -/
def parseObjMore (fuel : Nat) (acc : List (String × Json)) (s : List Char) :
    Option (Json × List Char) :=
  match fuel with
  | 0 => none
  | fuel + 1 =>
    match s.dropWhile isJsonWs with
    | '\x7d' :: r => some (.obj acc.reverse, r)
    | ',' :: r =>
      match r.dropWhile isJsonWs with
      | '"' :: r2 =>
        match parseStringRest r2 with
        | none => none
        | some (k, r3) => parseField fuel acc ⟨k⟩ r3
      | _ => none
    | _ => none

end

/-- Model of the `JSON.parse` builtin: parse one value and require only
whitespace after it. -/
def Json.parse (s : String) : Option Json :=
  match parseVal (s.length + 1) s.data with
  | some (j, rest) => if (rest.dropWhile isJsonWs).isEmpty then some j else none
  | none => none

/-! ## Base64 and base64url -/

/-- The standard base64 alphabet, indexed by six-bit value. -/
def stdB64Chars : List Char :=
  "ABCDEFGHIJKLMNOPQRSTUVWXYZabcdefghijklmnopqrstuvwxyz0123456789+/".data

/-- The base64url alphabet, indexed by six-bit value. -/
def urlB64Chars : List Char :=
  "ABCDEFGHIJKLMNOPQRSTUVWXYZabcdefghijklmnopqrstuvwxyz0123456789-_".data

/-- Index of a character in a list (first occurrence). -/
def lookupIdx : List Char → Char → Nat → Option Nat
  | [], _, _ => none
  | a :: as, c, i => if a = c then some i else lookupIdx as c (i + 1)

/-- Six-bit value of a standard base64 character. -/
def b64Val (c : Char) : Option Nat := lookupIdx stdB64Chars c 0

/-- base64url character for a six-bit value. -/
def sixToCharUrl (v : Nat) : Char := urlB64Chars.getD v 'A'

/-- The character replacement performed by `base64URLDecode`: every `-`
becomes `+` and every `_` becomes `/` (the two global regex replaces). -/
def urlToStd (c : Char) : Char :=
  if c = '-' then '+' else if c = '_' then '/' else c

/-- Unpadded base64url encoding of a byte sequence (the standard JWT segment
encoding, used to construct well-formed tokens). -/
def b64urlEncodeBytes : List Nat → List Char
  | [] => []
  | [b1] => [sixToCharUrl (b1 / 4), sixToCharUrl (b1 % 4 * 16)]
  | [b1, b2] =>
    [sixToCharUrl (b1 / 4), sixToCharUrl (b1 % 4 * 16 + b2 / 16),
     sixToCharUrl (b2 % 16 * 4)]
  | b1 :: b2 :: b3 :: rest =>
    sixToCharUrl (b1 / 4) :: sixToCharUrl (b1 % 4 * 16 + b2 / 16) ::
    sixToCharUrl (b2 % 16 * 4 + b3 / 64) :: sixToCharUrl (b3 % 64) ::
    b64urlEncodeBytes rest

/-- Decode groups of standard base64 characters into bytes (no padding
characters remain at this stage; leftover bits of a final 2- or 3-character
group are discarded, as in forgiving-base64). -/
def decodeGroups : List Char → Option (List Nat)
  | [] => some []
  | [c1, c2] =>
    match b64Val c1, b64Val c2 with
    | some v1, some v2 => some [v1 * 4 + v2 / 16]
    | _, _ => none
  | [c1, c2, c3] =>
    match b64Val c1, b64Val c2, b64Val c3 with
    | some v1, some v2, some v3 => some [v1 * 4 + v2 / 16, v2 % 16 * 16 + v3 / 4]
    | _, _, _ => none
  | c1 :: c2 :: c3 :: c4 :: rest =>
    match b64Val c1, b64Val c2, b64Val c3, b64Val c4, decodeGroups rest with
    | some v1, some v2, some v3, some v4, some bs =>
      some ((v1 * 4 + v2 / 16) :: (v2 % 16 * 16 + v3 / 4) :: (v3 % 4 * 64 + v4) :: bs)
    | _, _, _, _, _ => none
  | [_] => none

/-- ASCII whitespace removed by forgiving-base64 (`atob`). -/
def isB64Ws (c : Char) : Bool :=
  c = '\x09' || c = '\x0a' || c = '\x0c' || c = '\x0d' || c = ' '

/-- Strip one or two trailing `=` characters (forgiving-base64, applied when
the length is a multiple of four). -/
def stripPad (l : List Char) : List Char :=
  match l.reverse with
  | '=' :: '=' :: r => r.reverse
  | '=' :: r => r.reverse
  | _ => l

/-- Final stage of forgiving-base64: fail on a remainder-1 length or a
leftover `=`, else decode the character groups. -/
def atobCheck (u : List Char) : Option (List Nat) :=
  if u.length % 4 = 1 then none
  else if u.contains '=' then none
  else decodeGroups u

/-- Middle stage of forgiving-base64: strip the padding when the length is
a multiple of four. -/
def atobCore (t : List Char) : Option (List Nat) :=
  atobCheck (if t.length % 4 = 0 then stripPad t else t)

/-- Model of the `atob` builtin: WHATWG forgiving-base64 decode (remove
ASCII whitespace, strip padding, fail on bad lengths or stray `=`, decode
the groups). -/
def atob (s : List Char) : Option (List Nat) :=
  atobCore (s.filter (fun c => !isB64Ws c))

/-- The padding step of `base64URLDecode`: pad with `=` to a length that is
a multiple of four. -/
def padTo4 (l : List Char) : List Char :=
  let p := l.length % 4
  if p = 0 then l else l ++ List.replicate (4 - p) '='

/-! ## UTF-8 -/

/-- UTF-8 encoding of a Unicode scalar value. -/
def utf8EncodeChar (c : Char) : List Nat :=
  let n := c.toNat
  if n < 0x80 then [n]
  else if n < 0x800 then [0xC0 + n / 64, 0x80 + n % 64]
  else if n < 0x10000 then
    [0xE0 + n / 4096, 0x80 + n / 64 % 64, 0x80 + n % 64]
  else
    [0xF0 + n / 262144, 0x80 + n / 4096 % 64, 0x80 + n / 64 % 64, 0x80 + n % 64]

/-- UTF-8 encoding of a string. -/
def utf8Encode (s : String) : List Nat :=
  s.data.foldr (fun c acc => utf8EncodeChar c ++ acc) []

/-- Is a byte a UTF-8 continuation byte? -/
def isCont (b : Nat) : Bool := 0x80 ≤ b && b < 0xC0

/-- Decode one UTF-8 two-byte sequence (lead byte in `C2..DF`). -/
def utf8Cont1 (b : Nat) (rest : List Nat) : Option (Char × List Nat) :=
  match rest with
  | b2 :: rest2 =>
    if isCont b2 then
      (charOfNat? ((b - 0xC0) * 64 + (b2 - 0x80))).map (fun c => (c, rest2))
    else none
  | _ => none

/-- Decode one UTF-8 three-byte sequence (lead byte in `E0..EF`); overlong
encodings and surrogates fail (`charOfNat?` rejects surrogates). -/
def utf8Cont2 (b : Nat) (rest : List Nat) : Option (Char × List Nat) :=
  match rest with
  | b2 :: b3 :: rest3 =>
    if isCont b2 && isCont b3 then
      let n := (b - 0xE0) * 4096 + (b2 - 0x80) * 64 + (b3 - 0x80)
      if n < 0x800 then none
      else (charOfNat? n).map (fun c => (c, rest3))
    else none
  | _ => none

/-- Decode one UTF-8 four-byte sequence (lead byte in `F0..F4`); overlong
encodings and out-of-range scalars fail. -/
def utf8Cont3 (b : Nat) (rest : List Nat) : Option (Char × List Nat) :=
  match rest with
  | b2 :: b3 :: b4 :: rest4 =>
    if isCont b2 && isCont b3 && isCont b4 then
      let n := (b - 0xF0) * 262144 + (b2 - 0x80) * 4096 + (b3 - 0x80) * 64 + (b4 - 0x80)
      if n < 0x10000 then none
      else (charOfNat? n).map (fun c => (c, rest4))
    else none
  | _ => none

/-- Decode one UTF-8 scalar from the front of a byte sequence. -/
def utf8DecodeStep : List Nat → Option (Char × List Nat)
  | [] => none
  | b :: rest =>
    if b < 0x80 then (charOfNat? b).map (fun c => (c, rest))
    else if b < 0xC2 then none
    else if b < 0xE0 then utf8Cont1 b rest
    else if b < 0xF0 then utf8Cont2 b rest
    else if b < 0xF5 then utf8Cont3 b rest
    else none

/-- Fuel-indexed UTF-8 decoding loop (each step consumes at least one
byte, so a fuel of the byte count suffices). -/
def utf8DecodeAux : Nat → List Nat → Option (List Char)
  | _, [] => some []
  | 0, _ :: _ => none
  | fuel + 1, b :: rest =>
    match utf8DecodeStep (b :: rest) with
    | some (c, rest2) => (utf8DecodeAux fuel rest2).map (fun cs => c :: cs)
    | none => none

/-- Strict UTF-8 decoding of a byte sequence (the behaviour of the
`decodeURIComponent(escape(...))` idiom: malformed sequences, overlong
encodings and surrogates make `decodeURIComponent` throw a URIError). -/
def utf8Decode (l : List Nat) : Option (List Char) := utf8DecodeAux l.length l

/-! ## The source's `base64URLDecode` and token splitting -/

/-- Bytes of a base64url segment, by the source's recipe: map `-`/`_` to
`+`/`/`, pad with `=` to a multiple of four, then `atob`. -/
def b64uToBytes (s : String) : Option (List Nat) :=
  atob (padTo4 (s.data.map urlToStd))

/-- `base64URLDecode` from the source: base64url to bytes, then the
`decodeURIComponent(escape(...))` UTF-8 recovery.  A failure at either
stage is the function's thrown `Invalid base64 string` error (`none`). -/
def base64URLDecode (s : String) : Option String :=
  (b64uToBytes s).bind (fun bytes => (utf8Decode bytes).map (fun cs => (⟨cs⟩ : String)))

/-- base64url segment encoding a UTF-8 text (how well-formed token segments
are constructed). -/
def b64urlOfText (t : String) : String := ⟨b64urlEncodeBytes (utf8Encode t)⟩

/-- `String.prototype.split('.')`: split at every occurrence of `.`;
the result is never empty. -/
def splitOnDot : List Char → List (List Char)
  | [] => [[]]
  | c :: rest =>
    if c = '.' then [] :: splitOnDot rest
    else
      match splitOnDot rest with
      | [] => [[c]]
      | seg :: segs => (c :: seg) :: segs

/-- `token.split('.')` as a list of strings. -/
def jsSplit (s : String) : List String := (splitOnDot s.data).map (fun l => (⟨l⟩ : String))

/-- The destructuring `const [headerB64, payloadB64] = token.split('.')`:
the first segment always exists; the second may be `undefined`. -/
def jsFirstTwo (s : String) : String × Option String :=
  match jsSplit s with
  | [] => ("", none)
  | [a] => (a, none)
  | a :: b :: _ => (a, some b)

/-- Whitespace for `String.prototype.trim` (ASCII part; the claims never
exercise the non-ASCII trim characters). -/
def isTrimWs (c : Char) : Bool :=
  c = ' ' || c = '\x09' || c = '\x0a' || c = '\x0b' || c = '\x0c' || c = '\x0d'

/-- `!token.trim()`: the string trims to empty iff every character is
whitespace. -/
def jsTrimEmpty (s : String) : Bool := s.data.all isTrimWs

/-! ## The decode pipeline (`decodeToken`, lines 94-107) -/

/-- Outcome of the decode portion of `decodeToken` (the try block, lines
94-104): either both parts, or the single thrown error.  `invalidEncoding`
is the source's `Invalid base64 string` (covering base64 and UTF-8
failures); `invalidJson` is a `JSON.parse` SyntaxError. -/
inductive DecodeResult where
  | ok (header payload : Json)
  | malformed
  | invalidEncoding
  | invalidJson

/-- The decode logic of `decodeToken`: split on `.`, require the first two
segments non-empty (`!headerB64 || !payloadB64`), then base64url-decode and
JSON-parse the header, then the payload.  The third destructured segment
(`signature`) is never used here. -/
def decodeToken (token : String) : DecodeResult :=
  let headerB64 := (jsFirstTwo token).1
  match (jsFirstTwo token).2 with
  | none => .malformed
  | some payloadB64 =>
    if headerB64 = "" ∨ payloadB64 = "" then .malformed
    else
      match base64URLDecode headerB64 with
      | none => .invalidEncoding
      | some hTxt =>
        match Json.parse hTxt with
        | none => .invalidJson
        | some header =>
          match base64URLDecode payloadB64 with
          | none => .invalidEncoding
          | some pTxt =>
            match Json.parse pTxt with
            | none => .invalidJson
            | some payload => .ok header payload

/-- The spec's expiry classification. -/
inductive ExpiryStatus where
  | Expired
  | Valid
  | NoExpiry
deriving DecidableEq

/-- Is a millisecond count representable as a JavaScript `Date`?
(`new Date(ms)` is an Invalid Date beyond ±8.64e15 ms, and an Invalid Date
compares false against everything.) -/
def dateValid (ms : Int) : Bool := ms.natAbs ≤ 8640000000000000

/-- The expiry check of `decodeToken` (lines 109-116): `if (payload.exp)`
is a JavaScript truthiness test, so a numeric `exp` of `0` skips the check;
otherwise the warning fires iff `new Date(exp * 1000)` is a valid date
earlier than `now` (milliseconds).  A non-numeric `exp` value is coerced by
JavaScript via `ToNumber`; that coercion is outside the model (the data
model guarantees temporal claims are numbers when present), and such values
never yield `Expired` here. -/
def checkExpiry (payload : Json) (nowMs : Int) : ExpiryStatus :=
  match payload.getField "exp" with
  | none => .NoExpiry
  | some (.num e) =>
    if e ≠ 0 ∧ dateValid (e * 1000) ∧ e * 1000 < nowMs then .Expired else .Valid
  | some _ => .Valid

/-! ## The verifier (`parseAndVerifyJwks`, lines 42-80) -/

/-- The algorithm allow-list passed to `jose.jwtVerify` (line 58). -/
def allowedAlgorithms : List String :=
  ["RS256", "RS384", "RS512", "ES256", "ES384", "ES512"]

/-- Abstract cryptographic signature check: given the raw token and a JWK
record, does the signature verify?  This is the only part of the external
verification routine left abstract. -/
structure SigOracle where
  valid : String → Json → Bool

/-- Errors thrown by the modelled `jose.jwtVerify`. -/
inductive JoseError where
  | jwsInvalid
  | algNotAllowed (alg : String)
  | noMatchingKey
  | signatureFailed
  | jwtInvalid
  | claimFailed
  | jwtExpired
deriving DecidableEq

/-- Key type required for an allow-listed algorithm (RSA for `RS*`,
elliptic-curve for `ES*`). -/
def ktyForAlg (alg : String) : String :=
  if alg = "RS256" ∨ alg = "RS384" ∨ alg = "RS512" then "RSA"
  else if alg = "ES256" ∨ alg = "ES384" ∨ alg = "ES512" then "EC"
  else ""

/-- Modelled from the spec: the candidate-key filter of the external jose
library's `createLocalJWKSet` (not part of this repository's sources).  A
JWK matches when its `kty` fits the algorithm family, its `kid` equals the
header's `kid` when the header carries a string `kid`, and its optional
`use`, `key_ops` and `alg` members are compatible. -/
def jwkMatches (alg : String) (kid? : Option String) (jwk : Json) : Bool :=
  match jwk with
  | .obj _ =>
    (match jwk.getField "kty" with
     | some (.str t) => t = ktyForAlg alg
     | _ => false)
    && (match kid? with
        | some kid =>
          match jwk.getField "kid" with
          | some (.str k) => k = kid
          | _ => false
        | none => true)
    && (match jwk.getField "use" with
        | some (.str u) => u = "sig"
        | _ => true)
    && (match jwk.getField "key_ops" with
        | some (.arr ops) => ops.any (fun o => match o with | .str s => s = "verify" | _ => false)
        | _ => true)
    && (match jwk.getField "alg" with
        | some (.str a) => a = alg
        | _ => true)
  | _ => false

/-- Temporal claim validation performed by `jose.jwtVerify` after the
signature check (`nbf` then `exp`, against epoch seconds, zero clock
tolerance). -/
def validateExp (payload : Json) (nowSec : Int) : Option JoseError :=
  match payload.getField "exp" with
  | some (.num e) => if e ≤ nowSec then some .jwtExpired else none
  | some _ => some .claimFailed
  | none => none

/-- Claim validation: `nbf` first, then `exp`. -/
def validateClaims (payload : Json) (nowSec : Int) : Option JoseError :=
  match payload.getField "nbf" with
  | some (.num n) => if nowSec < n then some .claimFailed else validateExp payload nowSec
  | some _ => some .claimFailed
  | none => validateExp payload nowSec

/-- Modelled from the spec: the external jose library's `jwtVerify` (not
part of this repository's sources), following spec section 4.2 and jose's
documented behaviour.  The token must be three period-separated segments;
the protected header is decoded and must declare a non-empty string `alg`;
the `algorithms` option is enforced before key resolution; candidate keys
come from the key list; the signature bytes must decode; the abstract
oracle decides the cryptographic check (succeeding when any candidate key
verifies); the payload must decode to a JSON object; temporal claims are
then validated.  On success the payload and protected header are
returned. -/
def jwtVerify (o : SigOracle) (token : String) (keys : List Json) (nowSec : Int) :
    Except JoseError (Json × Json) :=
  match jsSplit token with
  | [h64, p64, s64] =>
    match base64URLDecode h64 with
    | none => .error .jwsInvalid
    | some hTxt =>
      match Json.parse hTxt with
      | none => .error .jwsInvalid
      | some header =>
        match header.getField "alg" with
        | some (.str alg) =>
          if alg = "" then .error .jwsInvalid
          else if alg ∉ allowedAlgorithms then .error (.algNotAllowed alg)
          else
            let kid? := match header.getField "kid" with
              | some (.str k) => some k
              | _ => none
            let cands := keys.filter (jwkMatches alg kid?)
            if cands.isEmpty then .error .noMatchingKey
            else
              match b64uToBytes p64, b64uToBytes s64 with
              | some pBytes, some _ =>
                if cands.any (o.valid token) then
                  match utf8Decode pBytes with
                  | none => .error .jwtInvalid
                  | some pChars =>
                    match Json.parse ⟨pChars⟩ with
                    | some (Json.obj fields) =>
                      match validateClaims (Json.obj fields) nowSec with
                      | some e => .error e
                      | none => .ok (Json.obj fields, header)
                    | _ => .error .jwtInvalid
                else .error .signatureFailed
              | _, _ => .error .jwsInvalid
        | _ => .error .jwsInvalid
  | _ => .error .jwsInvalid

/-- Failure reasons surfaced by `parseAndVerifyJwks`: the key-set text is
not a usable JWK Set (`JSON.parse` threw, or the `keys` member is missing
or not an array — the thrown `Invalid JWKS format - missing keys array`),
or the verification routine threw. -/
inductive VerifyError where
  | invalidKeySet
  | jose (e : JoseError)
deriving DecidableEq

/-- The message of a `SignatureStatus`, structurally: the success message
carries the algorithm and key id rendered at line 63; a failure carries the
underlying error. -/
inductive SigMessage where
  | success (alg kid : String)
  | failure (e : VerifyError)
deriving DecidableEq

/-- The source's `SignatureStatus` record: `verified` flag plus message. -/
structure SignatureStatus where
  verified : Bool
  message : SigMessage
deriving DecidableEq

/-- Template-literal rendering of a JSON value (only strings and numbers
are exercised by the claims; array joining is not modelled). -/
def jsDisplay : Json → String
  | .str s => s
  | .num n => toString n
  | .bool b => if b then "true" else "false"
  | .null => "null"
  | .arr _ => ""
  | .obj _ => "[object Object]"

/-- The algorithm name interpolated into the success message
(`protectedHeader.alg`). -/
def algDisplay (header : Json) : String :=
  match header.getField "alg" with
  | some (.str a) => a
  | _ => ""

/-- The key id interpolated into the success message:
`protectedHeader.kid || 'none'` — any falsy `kid` (absent or empty string)
renders as the sentinel `none`. -/
def kidDisplay (header : Json) : String :=
  match header.getField "kid" with
  | some v => if jsTruthy v then jsDisplay v else "none"
  | none => "none"

/-- `parseAndVerifyJwks` (lines 42-80): parse the key-set text, require an
array-valued `keys` member, then run the verification routine; every throw
is caught and returned as an unverified status. -/
def parseAndVerifyJwks (o : SigOracle) (jwksContent token : String) (nowSec : Int) :
    SignatureStatus :=
  match Json.parse jwksContent with
  | none => ⟨false, .failure .invalidKeySet⟩
  | some jwksData =>
    match jwksData.getField "keys" with
    | some (.arr keys) =>
      match jwtVerify o token keys nowSec with
      | .ok (_, protectedHeader) =>
        ⟨true, .success (algDisplay protectedHeader) (kidDisplay protectedHeader)⟩
      | .error e => ⟨false, .failure (.jose e)⟩
    | _ => ⟨false, .failure .invalidKeySet⟩

/-! ## The full `decodeToken` handler (lines 82-132) -/

/-- The messages `setError` can carry in `decodeToken`. -/
inductive ErrMsg where
  | emptyToken
  | invalidFormat
  | invalidEncoding
  | invalidJson
  | expiredWarning
deriving DecidableEq

/-- The component state after one run of the `decodeToken` handler. -/
structure UIState where
  error : Option ErrMsg
  decodedHeader : Option Json
  decodedPayload : Option Json
  signatureStatus : Option SignatureStatus

/-- One run of the full `decodeToken` handler: reset state; reject an
all-whitespace token; run the decode logic (a throw sets the error and
leaves header/payload unset); on success set header and payload, set the
advisory expiry warning, and — when key-set text is present — run
verification (which never throws; the inner catch at line 125 is
unreachable).  `nowMs` is the clock in milliseconds; the verification
routine receives it in epoch seconds as jose does. -/
def decodeTokenFull (o : SigOracle) (token jwks : String) (nowMs : Int) : UIState :=
  if jsTrimEmpty token then ⟨some .emptyToken, none, none, none⟩
  else
    match decodeToken token with
    | .malformed => ⟨some .invalidFormat, none, none, none⟩
    | .invalidEncoding => ⟨some .invalidEncoding, none, none, none⟩
    | .invalidJson => ⟨some .invalidJson, none, none, none⟩
    | .ok header payload =>
      { error := if checkExpiry payload nowMs = .Expired then some .expiredWarning else none
        decodedHeader := some header
        decodedPayload := some payload
        signatureStatus :=
          if jsTrimEmpty jwks then none
          else some (parseAndVerifyJwks o jwks token (nowMs.fdiv 1000)) }

/-! ## The display formatter over a mutable-object heap (lines 139-157) -/

/-- JavaScript property assignment on an object record: overwrite the
binding in place when the key exists, otherwise append it. -/
def updateAssoc (fs : List (String × Json)) (k : String) (v : Json) :
    List (String × Json) :=
  if fs.any (fun p => p.1 = k) then fs.map (fun p => if p.1 = k then (k, v) else p)
  else fs ++ [(k, v)]

/-- A heap of JavaScript objects (top-level payload objects; nested values
are immutable `Json` — the formatter only assigns top-level fields). -/
structure JsHeap where
  objs : List (List (String × Json))

/-- The spread `{ ...payload }`: allocate a fresh object with the same
top-level fields; returns the new heap and the new reference. -/
def spreadCopy (h : JsHeap) (r : Nat) : JsHeap × Nat :=
  (⟨h.objs ++ [h.objs.getD r []]⟩, h.objs.length)

/-- Mutating assignment `objAt(r)[k] = v`. -/
def setField (h : JsHeap) (r : Nat) (k : String) (v : Json) : JsHeap :=
  ⟨h.objs.set r (updateAssoc (h.objs.getD r []) k v)⟩

/-- Property read `objAt(r)[k]` (later binding wins). -/
def getHeapField (h : JsHeap) (r : Nat) (k : String) : Option Json :=
  (h.objs.getD r []).foldl (fun acc p => if p.1 = k then some p.2 else acc) none

/-- The annotation written over a temporal claim: the raw value plus the
human-readable rendering.  `fmt` abstracts `formatTimestamp` (lines
139-146), whose output depends on the runtime locale and timezone. -/
def annotateClaim (fmt : Int → String) (v : Json) : Json :=
  .str (jsDisplay v ++ " (" ++ (match v with | .num e => fmt e | _ => jsDisplay v) ++ ")")

/-- One iteration of the `['exp', 'iat', 'nbf'].forEach` loop (lines
151-155): when the claim's value on the copy is truthy, assign the
annotated string over it. -/
def annotStep (fmt : Int → String) (f : Nat) (hh : JsHeap) (claim : String) : JsHeap :=
  match getHeapField hh f claim with
  | some v => if jsTruthy v then setField hh f claim (annotateClaim fmt v) else hh
  | none => hh

/-- `formatPayloadDisplay` (lines 148-157) up to the final
`JSON.stringify` rendering: spread-copy the payload object, then for each
of `exp`, `iat`, `nbf` whose value is truthy, assign the annotated string
onto the copy.  Returns the heap after the run and the copy's reference. -/
def formatPayloadSteps (fmt : Int → String) (h : JsHeap) (r : Nat) : JsHeap × Nat :=
  let copy := spreadCopy h r
  (["exp", "iat", "nbf"].foldl (annotStep fmt copy.2) copy.1, copy.2)

/-! ## Alphabet facts -/

theorem b64Val_sixToCharUrl : ∀ v, v < 64 → b64Val (urlToStd (sixToCharUrl v)) = some v := by
  decide

theorem sixToCharUrl_mem : ∀ v, v < 64 → sixToCharUrl v ∈ urlB64Chars := by
  decide

theorem urlToStd_mem : ∀ c ∈ urlB64Chars, urlToStd c ∈ stdB64Chars := by
  decide

theorem eq_not_mem_std : '=' ∉ stdB64Chars := by decide

theorem std_not_ws : ∀ c ∈ stdB64Chars, isB64Ws c = false := by decide

theorem dot_not_mem_url : '.' ∉ urlB64Chars := by decide

/-! ## Splitting lemmas -/

theorem splitOnDot_ne_nil (l : List Char) : splitOnDot l ≠ [] := by
  cases l with
  | nil => simp [splitOnDot]
  | cons c rest =>
    unfold splitOnDot
    split
    · simp
    · split <;> simp

theorem splitOnDot_no_dot (l : List Char) (h : '.' ∉ l) : splitOnDot l = [l] := by
  induction l with
  | nil => rfl
  | cons c rest ih =>
    have hc : c ≠ '.' := fun hc => h (hc ▸ List.mem_cons_self c rest)
    have hr : '.' ∉ rest := fun hr => h (List.mem_cons_of_mem c hr)
    unfold splitOnDot
    rw [if_neg hc, ih hr]

theorem splitOnDot_append (a r : List Char) (h : '.' ∉ a) :
    splitOnDot (a ++ '.' :: r) = a :: splitOnDot r := by
  induction a with
  | nil => simp [splitOnDot]
  | cons c rest ih =>
    have hc : c ≠ '.' := fun hc => h (hc ▸ List.mem_cons_self c rest)
    have hr : '.' ∉ rest := fun hr => h (List.mem_cons_of_mem c hr)
    simp only [List.cons_append]
    simp [splitOnDot, hc, ih hr]

theorem splitOnDot_singleton (l x : List Char) (h : splitOnDot l = [x]) : l = x := by
  induction l generalizing x with
  | nil => simpa [splitOnDot] using h
  | cons c rest ih =>
    unfold splitOnDot at h
    by_cases hc : c = '.'
    · rw [if_pos hc] at h
      injection h with h1 h2
      exact absurd h2 (splitOnDot_ne_nil rest)
    · rw [if_neg hc] at h
      revert h
      cases hrec : splitOnDot rest with
      | nil => exact absurd hrec (splitOnDot_ne_nil rest)
      | cons seg segs =>
        intro h
        injection h with h1 h2
        have hseg : rest = seg := ih seg (by rw [hrec, h2])
        rw [← h1, hseg]

/-! ## Base64 round trip -/

theorem enc_mem (bs : List Nat) (hb : ∀ b ∈ bs, b < 256) :
    ∀ c ∈ b64urlEncodeBytes bs, c ∈ urlB64Chars := by
  induction bs using b64urlEncodeBytes.induct with
  | case1 => simp [b64urlEncodeBytes]
  | case2 b1 =>
    have h1 : b1 < 256 := hb b1 (by simp)
    simp only [b64urlEncodeBytes]
    intro c hc
    simp only [List.mem_cons, List.not_mem_nil, or_false] at hc
    rcases hc with rfl | rfl
    · exact sixToCharUrl_mem _ (by omega)
    · exact sixToCharUrl_mem _ (by omega)
  | case3 b1 b2 =>
    have h1 : b1 < 256 := hb b1 (by simp)
    have h2 : b2 < 256 := hb b2 (by simp)
    simp only [b64urlEncodeBytes]
    intro c hc
    simp only [List.mem_cons, List.not_mem_nil, or_false] at hc
    rcases hc with rfl | rfl | rfl
    · exact sixToCharUrl_mem _ (by omega)
    · exact sixToCharUrl_mem _ (by omega)
    · exact sixToCharUrl_mem _ (by omega)
  | case4 b1 b2 b3 rest ih =>
    have h1 : b1 < 256 := hb b1 (by simp)
    have h2 : b2 < 256 := hb b2 (by simp)
    have h3 : b3 < 256 := hb b3 (by simp)
    have hrest : ∀ b ∈ rest, b < 256 := fun b hbr => hb b (by simp [hbr])
    simp only [b64urlEncodeBytes]
    intro c hc
    simp only [List.mem_cons] at hc
    rcases hc with rfl | rfl | rfl | rfl | h
    · exact sixToCharUrl_mem _ (by omega)
    · exact sixToCharUrl_mem _ (by omega)
    · exact sixToCharUrl_mem _ (by omega)
    · exact sixToCharUrl_mem _ (by omega)
    · exact ih hrest c h

theorem enc_len_mod (bs : List Nat) : (b64urlEncodeBytes bs).length % 4 ≠ 1 := by
  induction bs using b64urlEncodeBytes.induct with
  | case1 => simp [b64urlEncodeBytes]
  | case2 b1 => simp [b64urlEncodeBytes]
  | case3 b1 b2 => simp [b64urlEncodeBytes]
  | case4 b1 b2 b3 rest ih =>
    simp only [b64urlEncodeBytes, List.length_cons]
    omega

theorem enc_ne_nil (bs : List Nat) (h : bs ≠ []) : b64urlEncodeBytes bs ≠ [] := by
  match bs with
  | [] => exact absurd rfl h
  | [b1] => simp [b64urlEncodeBytes]
  | [b1, b2] => simp [b64urlEncodeBytes]
  | b1 :: b2 :: b3 :: rest => simp [b64urlEncodeBytes]

theorem decode_enc (bs : List Nat) (hb : ∀ b ∈ bs, b < 256) :
    decodeGroups ((b64urlEncodeBytes bs).map urlToStd) = some bs := by
  induction bs using b64urlEncodeBytes.induct with
  | case1 => rfl
  | case2 b1 =>
    have h1 : b1 < 256 := hb b1 (by simp)
    have e1 := b64Val_sixToCharUrl (b1 / 4) (by omega)
    have e2 := b64Val_sixToCharUrl (b1 % 4 * 16) (by omega)
    simp only [b64urlEncodeBytes, List.map_cons, List.map_nil, decodeGroups, e1, e2]
    have : b1 / 4 * 4 + b1 % 4 * 16 / 16 = b1 := by omega
    rw [this]
  | case3 b1 b2 =>
    have h1 : b1 < 256 := hb b1 (by simp)
    have h2 : b2 < 256 := hb b2 (by simp)
    have e1 := b64Val_sixToCharUrl (b1 / 4) (by omega)
    have e2 := b64Val_sixToCharUrl (b1 % 4 * 16 + b2 / 16) (by omega)
    have e3 := b64Val_sixToCharUrl (b2 % 16 * 4) (by omega)
    simp only [b64urlEncodeBytes, List.map_cons, List.map_nil, decodeGroups, e1, e2, e3]
    have g1 : b1 / 4 * 4 + (b1 % 4 * 16 + b2 / 16) / 16 = b1 := by omega
    have g2 : (b1 % 4 * 16 + b2 / 16) % 16 * 16 + b2 % 16 * 4 / 4 = b2 := by omega
    rw [g1, g2]
  | case4 b1 b2 b3 rest ih =>
    have h1 : b1 < 256 := hb b1 (by simp)
    have h2 : b2 < 256 := hb b2 (by simp)
    have h3 : b3 < 256 := hb b3 (by simp)
    have hrest : ∀ b ∈ rest, b < 256 := fun b hbr => hb b (by simp [hbr])
    have e1 := b64Val_sixToCharUrl (b1 / 4) (by omega)
    have e2 := b64Val_sixToCharUrl (b1 % 4 * 16 + b2 / 16) (by omega)
    have e3 := b64Val_sixToCharUrl (b2 % 16 * 4 + b3 / 64) (by omega)
    have e4 := b64Val_sixToCharUrl (b3 % 64) (by omega)
    simp only [b64urlEncodeBytes, List.map_cons, decodeGroups, e1, e2, e3, e4, ih hrest]
    have g1 : b1 / 4 * 4 + (b1 % 4 * 16 + b2 / 16) / 16 = b1 := by omega
    have g2 : (b1 % 4 * 16 + b2 / 16) % 16 * 16 + (b2 % 16 * 4 + b3 / 64) / 4 = b2 := by
      omega
    have g3 : (b2 % 16 * 4 + b3 / 64) % 4 * 64 + b3 % 64 = b3 := by omega
    rw [g1, g2, g3]

theorem stripPad_of_no_eq (l : List Char) (h : '=' ∉ l) : stripPad l = l := by
  unfold stripPad
  split
  · next r heq =>
    exfalso
    apply h
    rw [← List.mem_reverse, heq]
    exact List.mem_cons_self _ _
  · next r heq =>
    exfalso
    apply h
    rw [← List.mem_reverse, heq]
    exact List.mem_cons_self _ _
  · rfl

theorem stripPad_append_two (x : List Char) : stripPad (x ++ ['=', '=']) = x := by
  unfold stripPad
  rw [show (x ++ ['=', '=']).reverse = '=' :: '=' :: x.reverse by simp]
  simp

theorem stripPad_append_one (x : List Char) (y : Char) (ys : List Char)
    (hrev : x.reverse = y :: ys) (hy : y ≠ '=') : stripPad (x ++ ['=']) = x := by
  unfold stripPad
  rw [show (x ++ ['=']).reverse = '=' :: y :: ys by simp [hrev]]
  split
  · next r heq =>
    injection heq with u1 u2
    injection u2 with u3 u4
    exact absurd u3 hy
  · next r heq =>
    injection heq with u1 u2
    rw [← u2, ← hrev, List.reverse_reverse]
  · next hne1 hne2 =>
    exact absurd rfl (hne2 (y :: ys))

theorem atob_pad (x : List Char) (hx : ∀ c ∈ x, c ∈ stdB64Chars)
    (hlen : x.length % 4 ≠ 1) : atob (padTo4 x) = decodeGroups x := by
  have hnoeq : '=' ∉ x := fun hmem => eq_not_mem_std (hx _ hmem)
  have hnows : ∀ c ∈ x, isB64Ws c = false := fun c hc => std_not_ws c (hx c hc)
  have heqws : isB64Ws '=' = false := by decide
  have hcont : x.contains '=' = false := by
    simpa using hnoeq
  have hcheck : atobCheck x = decodeGroups x := by
    unfold atobCheck
    rw [if_neg hlen, hcont]
    simp
  have hp : x.length % 4 = 0 ∨ x.length % 4 = 2 ∨ x.length % 4 = 3 := by omega
  rcases hp with hp | hp | hp
  · have h1 : padTo4 x = x := by simp [padTo4, hp]
    rw [h1]
    unfold atob
    rw [List.filter_eq_self.mpr (by intro c hc; simp [hnows c hc])]
    unfold atobCore
    rw [if_pos hp, stripPad_of_no_eq x hnoeq, hcheck]
  · have h1 : padTo4 x = x ++ ['=', '='] := by
      simp [padTo4, hp]
    rw [h1]
    unfold atob
    rw [show (x ++ ['=', '=']).filter (fun c => !isB64Ws c) = x ++ ['=', '='] by
      rw [List.filter_append]
      rw [List.filter_eq_self.mpr (by intro c hc; simp [hnows c hc])]
      simp [heqws]]
    unfold atobCore
    rw [if_pos (by simp; omega), stripPad_append_two, hcheck]
  · have h1 : padTo4 x = x ++ ['='] := by
      simp [padTo4, hp]
    rw [h1]
    have hxne : x ≠ [] := by
      intro hx0
      rw [hx0] at hp
      simp at hp
    obtain ⟨y, ys, hrev⟩ : ∃ y ys, x.reverse = y :: ys := by
      cases hr : x.reverse with
      | nil => exact absurd (List.reverse_eq_nil_iff.mp hr) hxne
      | cons y ys => exact ⟨y, ys, rfl⟩
    have hy : y ≠ '=' := by
      intro hy0
      apply hnoeq
      rw [← List.mem_reverse, hrev, hy0]
      exact List.mem_cons_self _ _
    unfold atob
    rw [show (x ++ ['=']).filter (fun c => !isB64Ws c) = x ++ ['='] from by
      rw [List.filter_append]
      rw [List.filter_eq_self.mpr (by intro c hc; simp [hnows c hc])]
      simp [heqws]]
    unfold atobCore
    rw [if_pos (by simp; omega), stripPad_append_one x y ys hrev hy, hcheck]

theorem b64u_roundtrip_bytes (bs : List Nat) (hb : ∀ b ∈ bs, b < 256) :
    b64uToBytes (⟨b64urlEncodeBytes bs⟩ : String) = some bs := by
  unfold b64uToBytes
  have hdata : ((⟨b64urlEncodeBytes bs⟩ : String)).data = b64urlEncodeBytes bs := rfl
  rw [hdata]
  have hx : ∀ c ∈ (b64urlEncodeBytes bs).map urlToStd, c ∈ stdB64Chars := by
    intro c hc
    rw [List.mem_map] at hc
    obtain ⟨c0, hc0, rfl⟩ := hc
    exact urlToStd_mem c0 (enc_mem bs hb c0 hc0)
  have hlen : ((b64urlEncodeBytes bs).map urlToStd).length % 4 ≠ 1 := by
    rw [List.length_map]
    exact enc_len_mod bs
  rw [atob_pad _ hx hlen, decode_enc bs hb]

/-! ## UTF-8 round trip -/

theorem charOfNat?_toNat (c : Char) : charOfNat? c.toNat = some c := by
  have hv : c.toNat.isValidChar := c.valid
  unfold charOfNat?
  rw [dif_pos hv]
  exact congrArg some (Char.eq_of_val_eq rfl)

theorem char_toNat_lt (c : Char) : c.toNat < 0x110000 := by
  rcases c.valid with h | h
  · exact Nat.lt_trans h (by norm_num)
  · exact h.2

theorem utf8EncodeChar_ne_nil (c : Char) : utf8EncodeChar c ≠ [] := by
  simp only [utf8EncodeChar]
  split
  · simp
  · split
    · simp
    · split <;> simp

theorem utf8EncodeChar_lt (c : Char) : ∀ b ∈ utf8EncodeChar c, b < 256 := by
  have hv := char_toNat_lt c
  simp only [utf8EncodeChar]
  split
  · next h1 =>
    intro b hb
    simp only [List.mem_cons, List.not_mem_nil, or_false] at hb
    omega
  · split
    · next h1 h2 =>
      intro b hb
      simp only [List.mem_cons, List.not_mem_nil, or_false] at hb
      rcases hb with rfl | rfl <;> omega
    · split
      · next h1 h2 h3 =>
        intro b hb
        simp only [List.mem_cons, List.not_mem_nil, or_false] at hb
        rcases hb with rfl | rfl | rfl <;> omega
      · next h1 h2 h3 =>
        intro b hb
        simp only [List.mem_cons, List.not_mem_nil, or_false] at hb
        rcases hb with rfl | rfl | rfl | rfl <;> omega

theorem utf8DecodeStep_one (n : Nat) (h : n < 0x80) (tail : List Nat) :
    utf8DecodeStep (n :: tail) = (charOfNat? n).map (fun c => (c, tail)) := by
  simp only [utf8DecodeStep]
  rw [if_pos h]

theorem utf8DecodeStep_two (n : Nat) (hlo : 0x80 ≤ n) (hhi : n < 0x800) (tail : List Nat) :
    utf8DecodeStep ((0xC0 + n / 64) :: (0x80 + n % 64) :: tail) =
      (charOfNat? n).map (fun c => (c, tail)) := by
  have hc : isCont (0x80 + n % 64) = true := by
    simp only [isCont, Bool.and_eq_true, decide_eq_true_eq]
    omega
  have harith : (0xC0 + n / 64 - 0xC0) * 64 + (0x80 + n % 64 - 0x80) = n := by omega
  simp only [utf8DecodeStep]
  rw [if_neg (by omega), if_neg (by omega), if_pos (by omega)]
  simp only [utf8Cont1]
  rw [hc, harith]
  simp

theorem utf8DecodeStep_three (n : Nat) (hlo : 0x800 ≤ n) (hhi : n < 0x10000)
    (tail : List Nat) :
    utf8DecodeStep ((0xE0 + n / 4096) :: (0x80 + n / 64 % 64) :: (0x80 + n % 64) :: tail) =
      (charOfNat? n).map (fun c => (c, tail)) := by
  have hc : (isCont (0x80 + n / 64 % 64) && isCont (0x80 + n % 64)) = true := by
    simp only [isCont, Bool.and_eq_true, decide_eq_true_eq]
    omega
  have harith : (0xE0 + n / 4096 - 0xE0) * 4096 + (0x80 + n / 64 % 64 - 0x80) * 64 +
      (0x80 + n % 64 - 0x80) = n := by omega
  simp only [utf8DecodeStep]
  rw [if_neg (by omega), if_neg (by omega), if_neg (by omega), if_pos (by omega)]
  simp only [utf8Cont2]
  rw [hc, harith, if_pos rfl, if_neg (by omega)]

theorem utf8DecodeStep_four (n : Nat) (hlo : 0x10000 ≤ n) (hhi : n < 0x110000)
    (tail : List Nat) :
    utf8DecodeStep ((0xF0 + n / 262144) :: (0x80 + n / 4096 % 64) ::
        (0x80 + n / 64 % 64) :: (0x80 + n % 64) :: tail) =
      (charOfNat? n).map (fun c => (c, tail)) := by
  have hc : (isCont (0x80 + n / 4096 % 64) && isCont (0x80 + n / 64 % 64) &&
      isCont (0x80 + n % 64)) = true := by
    simp only [isCont, Bool.and_eq_true, decide_eq_true_eq]
    omega
  have harith : (0xF0 + n / 262144 - 0xF0) * 262144 + (0x80 + n / 4096 % 64 - 0x80) * 4096 +
      (0x80 + n / 64 % 64 - 0x80) * 64 + (0x80 + n % 64 - 0x80) = n := by omega
  simp only [utf8DecodeStep]
  rw [if_neg (by omega), if_neg (by omega), if_neg (by omega), if_neg (by omega),
      if_pos (by omega)]
  simp only [utf8Cont3]
  rw [hc, harith, if_pos rfl, if_neg (by omega)]

theorem utf8DecodeStep_encodeChar (c : Char) (tail : List Nat) :
    utf8DecodeStep (utf8EncodeChar c ++ tail) = some (c, tail) := by
  have hv := char_toNat_lt c
  by_cases h1 : c.toNat < 0x80
  · rw [show utf8EncodeChar c = [c.toNat] from by
      simp only [utf8EncodeChar]; rw [if_pos h1]]
    rw [List.cons_append, List.nil_append, utf8DecodeStep_one _ h1, charOfNat?_toNat]
    rfl
  · by_cases h2 : c.toNat < 0x800
    · rw [show utf8EncodeChar c = [0xC0 + c.toNat / 64, 0x80 + c.toNat % 64] from by
        simp only [utf8EncodeChar]; rw [if_neg h1, if_pos h2]]
      rw [List.cons_append, List.cons_append, List.nil_append,
          utf8DecodeStep_two _ (by omega) h2, charOfNat?_toNat]
      rfl
    · by_cases h3 : c.toNat < 0x10000
      · rw [show utf8EncodeChar c =
            [0xE0 + c.toNat / 4096, 0x80 + c.toNat / 64 % 64, 0x80 + c.toNat % 64] from by
          simp only [utf8EncodeChar]; rw [if_neg h1, if_neg h2, if_pos h3]]
        rw [List.cons_append, List.cons_append, List.cons_append, List.nil_append,
            utf8DecodeStep_three _ (by omega) h3, charOfNat?_toNat]
        rfl
      · rw [show utf8EncodeChar c =
            [0xF0 + c.toNat / 262144, 0x80 + c.toNat / 4096 % 64,
             0x80 + c.toNat / 64 % 64, 0x80 + c.toNat % 64] from by
          simp only [utf8EncodeChar]; rw [if_neg h1, if_neg h2, if_neg h3]]
        rw [List.cons_append, List.cons_append, List.cons_append, List.cons_append,
            List.nil_append, utf8DecodeStep_four _ (by omega) hv, charOfNat?_toNat]
        rfl

theorem utf8DecodeAux_encode (l : List Char) (fuel : Nat)
    (hf : (l.foldr (fun c acc => utf8EncodeChar c ++ acc) []).length ≤ fuel) :
    utf8DecodeAux fuel (l.foldr (fun c acc => utf8EncodeChar c ++ acc) []) = some l := by
  induction l generalizing fuel with
  | nil =>
    cases fuel <;> rfl
  | cons c rest ih =>
    obtain ⟨b0, bs0, henc⟩ : ∃ b0 bs0, utf8EncodeChar c = b0 :: bs0 := by
      cases h : utf8EncodeChar c with
      | nil => exact absurd h (utf8EncodeChar_ne_nil c)
      | cons b0 bs0 => exact ⟨b0, bs0, rfl⟩
    rw [List.foldr_cons] at hf ⊢
    set eb := rest.foldr (fun c acc => utf8EncodeChar c ++ acc) [] with heb
    have hcons : utf8EncodeChar c ++ eb = b0 :: (bs0 ++ eb) := by rw [henc]; rfl
    have hlen : eb.length ≤ fuel - 1 := by
      rw [hcons] at hf
      simp only [List.length_cons, List.length_append] at hf
      omega
    cases fuel with
    | zero =>
      rw [hcons] at hf
      simp at hf
    | succ f =>
      rw [hcons]
      simp only [utf8DecodeAux]
      rw [← hcons, utf8DecodeStep_encodeChar]
      have hf2 : eb.length ≤ f := by omega
      show (utf8DecodeAux f eb).map (fun cs => c :: cs) = some (c :: rest)
      rw [ih f hf2]
      rfl

theorem utf8Decode_encode (s : String) : utf8Decode (utf8Encode s) = some s.data := by
  unfold utf8Decode utf8Encode
  exact utf8DecodeAux_encode s.data _ (le_refl _)

theorem utf8Encode_lt (s : String) : ∀ b ∈ utf8Encode s, b < 256 := by
  unfold utf8Encode
  induction s.data with
  | nil => simp
  | cons c rest ih =>
    simp only [List.foldr_cons]
    intro b hb
    rcases List.mem_append.mp hb with h | h
    · exact utf8EncodeChar_lt c b h
    · exact ih b h

theorem utf8Encode_ne_nil (s : String) (h : s ≠ "") : utf8Encode s ≠ [] := by
  have hd : s.data ≠ [] := by
    intro h0
    apply h
    cases s with
    | mk d =>
      simp only at h0
      rw [h0]
  unfold utf8Encode
  cases hdata : s.data with
  | nil => exact absurd hdata hd
  | cons c rest =>
    simp only [List.foldr_cons]
    intro happ
    exact utf8EncodeChar_ne_nil c (List.append_eq_nil.mp happ).1

theorem b64url_text_roundtrip (t : String) :
    base64URLDecode (b64urlOfText t) = some t := by
  unfold base64URLDecode b64urlOfText
  rw [b64u_roundtrip_bytes _ (utf8Encode_lt t)]
  rw [Option.some_bind, utf8Decode_encode]
  rfl

/-! ## Constructed tokens decode to their source objects -/

theorem string_data_ne_nil (t : String) (h : t ≠ "") : t.data ≠ [] := by
  intro h0
  apply h
  cases t with
  | mk d =>
    simp only at h0
    rw [h0]

theorem b64urlOfText_no_dot (t : String) : '.' ∉ (b64urlOfText t).data := by
  intro hmem
  exact dot_not_mem_url (enc_mem _ (utf8Encode_lt t) _ hmem)

theorem b64urlOfText_ne_empty (t : String) (h : t ≠ "") : b64urlOfText t ≠ "" := by
  intro h0
  have hdata : b64urlEncodeBytes (utf8Encode t) = [] := congrArg String.data h0
  exact enc_ne_nil _ (utf8Encode_ne_nil t h) hdata

theorem parse_ne_empty (t : String) (j : Json) (h : Json.parse t = some j) : t ≠ "" := by
  intro h0
  rw [h0] at h
  exact Option.noConfusion h

theorem jsSplit_construct (A B sig : String) (hA : '.' ∉ A.data) (hB : '.' ∉ B.data) :
    jsSplit (A ++ "." ++ B ++ "." ++ sig) = A :: B :: jsSplit sig := by
  unfold jsSplit
  have hdata : (A ++ "." ++ B ++ "." ++ sig).data =
      A.data ++ '.' :: (B.data ++ '.' :: sig.data) := by
    simp [String.data_append]
  rw [hdata, splitOnDot_append _ _ hA, splitOnDot_append _ _ hB]
  rfl

theorem decodeToken_construct (Th Tp sig : String) (h p : Json)
    (hh : Json.parse Th = some h) (hp : Json.parse Tp = some p) :
    decodeToken (b64urlOfText Th ++ "." ++ b64urlOfText Tp ++ "." ++ sig) = .ok h p := by
  have hsplit := jsSplit_construct (b64urlOfText Th) (b64urlOfText Tp) sig
    (b64urlOfText_no_dot Th) (b64urlOfText_no_dot Tp)
  have hfirst : jsFirstTwo (b64urlOfText Th ++ "." ++ b64urlOfText Tp ++ "." ++ sig) =
      (b64urlOfText Th, some (b64urlOfText Tp)) := by
    unfold jsFirstTwo
    rw [hsplit]
  unfold decodeToken
  rw [hfirst]
  dsimp only
  rw [if_neg (by
    push_neg
    exact ⟨b64urlOfText_ne_empty Th (parse_ne_empty Th h hh),
           b64urlOfText_ne_empty Tp (parse_ne_empty Tp p hp)⟩)]
  rw [b64url_text_roundtrip Th]
  dsimp only
  rw [hh]
  dsimp only
  rw [b64url_text_roundtrip Tp]
  dsimp only
  rw [hp]

/-! ## Expiry classification -/

theorem checkExpiry_expired_iff (p : Json) (nowMs : Int) :
    checkExpiry p nowMs = .Expired ↔
      ∃ e : Int, p.getField "exp" = some (.num e) ∧ e ≠ 0 ∧
        dateValid (e * 1000) = true ∧ e * 1000 < nowMs := by
  cases hf : p.getField "exp" with
  | none => simp [checkExpiry, hf]
  | some v =>
    cases v with
    | num e =>
      simp only [checkExpiry, hf]
      by_cases h0 : e ≠ 0 ∧ dateValid (e * 1000) = true ∧ e * 1000 < nowMs
      · rw [if_pos h0]
        constructor
        · intro _
          exact ⟨e, rfl, h0.1, h0.2.1, h0.2.2⟩
        · intro _
          rfl
      · rw [if_neg h0]
        constructor
        · intro hv
          exact absurd hv (by simp)
        · rintro ⟨e2, he2, hne, hdv, hlt⟩
          injection he2 with he3
          injection he3 with he4
          subst he4
          exact absurd ⟨hne, hdv, hlt⟩ h0
    | null => simp [checkExpiry, hf]
    | bool b => simp [checkExpiry, hf]
    | str s2 => simp [checkExpiry, hf]
    | arr l => simp [checkExpiry, hf]
    | obj o => simp [checkExpiry, hf]

theorem checkExpiry_noExpiry_iff (p : Json) (nowMs : Int) :
    checkExpiry p nowMs = .NoExpiry ↔ p.getField "exp" = none := by
  cases hf : p.getField "exp" with
  | none => simp [checkExpiry, hf]
  | some v =>
    cases v with
    | num e =>
      simp only [checkExpiry, hf]
      constructor
      · intro hv
        split at hv <;> simp at hv
      · intro hv
        exact absurd hv (by simp)
    | null => simp [checkExpiry, hf]
    | bool b => simp [checkExpiry, hf]
    | str s2 => simp [checkExpiry, hf]
    | arr l => simp [checkExpiry, hf]
    | obj o => simp [checkExpiry, hf]

theorem checkExpiry_mono (p : Json) (n1 n2 : Int) (h12 : n1 ≤ n2)
    (h : checkExpiry p n1 = .Expired) : checkExpiry p n2 = .Expired := by
  rw [checkExpiry_expired_iff] at h ⊢
  obtain ⟨e, hf, hne, hdv, hlt⟩ := h
  exact ⟨e, hf, hne, hdv, by omega⟩

/-! ## First-two-segment analysis -/

theorem jsSplit_ne_nil (t : String) : jsSplit t ≠ [] := by
  unfold jsSplit
  intro h0
  exact splitOnDot_ne_nil t.data (List.map_eq_nil_iff.mp h0)

theorem jsFirstTwo_no_dot (t : String) (h : '.' ∉ t.data) : jsFirstTwo t = (t, none) := by
  have hs : splitOnDot t.data = [t.data] := splitOnDot_no_dot _ h
  unfold jsFirstTwo jsSplit
  rw [hs]
  rfl

theorem splitOnDot_two_of_dot (l : List Char) (h : '.' ∈ l) :
    ∃ x y ys, splitOnDot l = x :: y :: ys := by
  induction l with
  | nil => simp at h
  | cons c rest ih =>
    by_cases hc : c = '.'
    · subst hc
      cases hs : splitOnDot rest with
      | nil => exact absurd hs (splitOnDot_ne_nil rest)
      | cons y ys => exact ⟨[], y, ys, by simp [splitOnDot, hs]⟩
    · have hr : '.' ∈ rest := by
        rcases List.mem_cons.mp h with h1 | h1
        · exact absurd h1.symm hc
        · exact h1
      obtain ⟨x, y, ys, hs⟩ := ih hr
      exact ⟨c :: x, y, ys, by simp [splitOnDot, hc, hs]⟩

theorem jsFirstTwo_some_of_dot (t : String) (h : '.' ∈ t.data) :
    ∃ a b, jsFirstTwo t = (a, some b) := by
  obtain ⟨x, y, ys, hs⟩ := splitOnDot_two_of_dot t.data h
  refine ⟨⟨x⟩, ⟨y⟩, ?_⟩
  unfold jsFirstTwo jsSplit
  rw [hs]
  rfl

theorem trimEmpty_false_of_dot (t : String) (h : '.' ∈ t.data) : jsTrimEmpty t = false := by
  have hnot : ¬ (∀ x ∈ t.data, isTrimWs x = true) := by
    intro hall
    have := hall '.' h
    simp [isTrimWs] at this
  unfold jsTrimEmpty
  cases hb : t.data.all isTrimWs with
  | false => rfl
  | true => exact absurd (List.all_eq_true.mp hb) hnot

theorem trimEmpty_eq_of_firstTwo (t1 t2 : String) (h : jsFirstTwo t1 = jsFirstTwo t2) :
    jsTrimEmpty t1 = jsTrimEmpty t2 := by
  by_cases hd1 : '.' ∈ t1.data
  · by_cases hd2 : '.' ∈ t2.data
    · rw [trimEmpty_false_of_dot _ hd1, trimEmpty_false_of_dot _ hd2]
    · obtain ⟨a, b, hab⟩ := jsFirstTwo_some_of_dot t1 hd1
      have h2 : jsFirstTwo t2 = (t2, none) := jsFirstTwo_no_dot t2 hd2
      rw [hab, h2] at h
      injection h with h3 h4
      exact absurd h4 (by simp)
  · by_cases hd2 : '.' ∈ t2.data
    · obtain ⟨a, b, hab⟩ := jsFirstTwo_some_of_dot t2 hd2
      have h1 : jsFirstTwo t1 = (t1, none) := jsFirstTwo_no_dot t1 hd1
      rw [hab, h1] at h
      injection h with h3 h4
      exact absurd h4.symm (by simp)
    · have h1 : jsFirstTwo t1 = (t1, none) := jsFirstTwo_no_dot t1 hd1
      have h2 : jsFirstTwo t2 = (t2, none) := jsFirstTwo_no_dot t2 hd2
      rw [h1, h2] at h
      injection h with h3 h4
      rw [h3]

/-! ## Decode outcome analysis -/

theorem jsFirstTwo_of_split_cons (t : String) (a b : String) (rest : List String)
    (hs : jsSplit t = a :: b :: rest) : jsFirstTwo t = (a, some b) := by
  unfold jsFirstTwo
  rw [hs]

theorem jsFirstTwo_of_split_single (t a : String) (hs : jsSplit t = [a]) :
    jsFirstTwo t = (a, none) := by
  unfold jsFirstTwo
  rw [hs]

theorem decodeToken_malformed_of (t : String)
    (hc : ('.' ∉ t.data) ∨ ((jsSplit t).filter (fun s => s ≠ "")).length < 2) :
    decodeToken t = .malformed := by
  rcases hc with hc | hc
  · have h1 := jsFirstTwo_no_dot t hc
    unfold decodeToken
    rw [h1]
  · cases hs : jsSplit t with
    | nil => exact absurd hs (jsSplit_ne_nil t)
    | cons a xs =>
      cases xs with
      | nil =>
        have h1 := jsFirstTwo_of_split_single t a hs
        unfold decodeToken
        rw [h1]
      | cons b rest =>
        have h1 := jsFirstTwo_of_split_cons t a b rest hs
        have hab : a = "" ∨ b = "" := by
          by_contra hnn
          push_neg at hnn
          rw [hs] at hc
          simp [List.filter_cons, hnn.1, hnn.2] at hc
          omega
        unfold decodeToken
        rw [h1]
        dsimp only
        rw [if_pos hab]

theorem decodeToken_ok_dot (t : String) (h p : Json) (hok : decodeToken t = .ok h p) :
    '.' ∈ t.data := by
  by_contra hd
  have h1 := jsFirstTwo_no_dot t hd
  unfold decodeToken at hok
  rw [h1] at hok
  dsimp only at hok
  exact DecodeResult.noConfusion hok

theorem decodeTokenFull_ok (o : SigOracle) (token jwks : String) (nowMs : Int)
    (h p : Json) (hok : decodeToken token = .ok h p) :
    decodeTokenFull o token jwks nowMs =
      { error := if checkExpiry p nowMs = .Expired then some .expiredWarning else none
        decodedHeader := some h
        decodedPayload := some p
        signatureStatus := if jsTrimEmpty jwks then none
          else some (parseAndVerifyJwks o jwks token (nowMs.fdiv 1000)) } := by
  have htrim : jsTrimEmpty token = false :=
    trimEmpty_false_of_dot _ (decodeToken_ok_dot _ _ _ hok)
  unfold decodeTokenFull
  rw [htrim, hok]
  simp

theorem decodeTokenFull_err (o : SigOracle) (token jwks : String) (nowMs : Int)
    (herr : ∀ h p, decodeToken token ≠ .ok h p) :
    (decodeTokenFull o token jwks nowMs).decodedHeader = none ∧
    (decodeTokenFull o token jwks nowMs).decodedPayload = none ∧
    (decodeTokenFull o token jwks nowMs).signatureStatus = none := by
  unfold decodeTokenFull
  cases htrim : jsTrimEmpty token with
  | true => simp
  | false =>
    simp only [Bool.false_eq_true, if_false]
    cases hdt : decodeToken token with
    | ok h p => exact absurd hdt (herr h p)
    | malformed => simp
    | invalidEncoding => simp
    | invalidJson => simp

theorem decodeTokenFull_oracle_indep (o1 o2 : SigOracle) (token jwks : String)
    (nowMs : Int) (herr : ∀ h p, decodeToken token ≠ .ok h p) :
    decodeTokenFull o1 token jwks nowMs = decodeTokenFull o2 token jwks nowMs := by
  unfold decodeTokenFull
  cases htrim : jsTrimEmpty token with
  | true => simp
  | false =>
    simp only [Bool.false_eq_true, if_false]
    cases hdt : decodeToken token with
    | ok h p => exact absurd hdt (herr h p)
    | malformed => rfl
    | invalidEncoding => rfl
    | invalidJson => rfl

theorem decodeTokenFull_empty_jwks_eq (o : SigOracle) (t1 t2 : String) (nowMs : Int)
    (h : jsFirstTwo t1 = jsFirstTwo t2) :
    decodeTokenFull o t1 "" nowMs = decodeTokenFull o t2 "" nowMs := by
  have htr := trimEmpty_eq_of_firstTwo t1 t2 h
  have hdec : decodeToken t1 = decodeToken t2 := by
    unfold decodeToken
    rw [h]
  unfold decodeTokenFull
  rw [htr, hdec]
  cases htrim2 : jsTrimEmpty t2 with
  | true => simp
  | false =>
    simp only [Bool.false_eq_true, if_false]
    cases hdt : decodeToken t2 with
    | ok h2 p2 => rfl
    | malformed => rfl
    | invalidEncoding => rfl
    | invalidJson => rfl

/-! ## Heap frame property of the display formatter -/

theorem setField_get?_ne (hh : JsHeap) (i j : Nat) (hij : i ≠ j) (k : String) (v : Json) :
    (setField hh j k v).objs[i]? = hh.objs[i]? := by
  unfold setField
  exact List.getElem?_set_ne (fun he => hij he.symm)

theorem annotStep_get?_ne (fmt : Int → String) (f i : Nat) (hif : i ≠ f)
    (hh : JsHeap) (claim : String) :
    (annotStep fmt f hh claim).objs[i]? = hh.objs[i]? := by
  unfold annotStep
  cases hg : getHeapField hh f claim with
  | none => rfl
  | some v =>
    dsimp only
    by_cases ht : jsTruthy v
    · rw [if_pos ht]
      exact setField_get?_ne hh i f hif claim (annotateClaim fmt v)
    · rw [if_neg ht]

theorem formatPayloadSteps_frame (fmt : Int → String) (h : JsHeap) (r : Nat)
    (hr : r < h.objs.length) :
    ((formatPayloadSteps fmt h r).1).objs[r]? = h.objs[r]? := by
  unfold formatPayloadSteps spreadCopy
  dsimp only
  simp only [List.foldl_cons, List.foldl_nil]
  have hne : r ≠ h.objs.length := by omega
  rw [annotStep_get?_ne _ _ _ hne, annotStep_get?_ne _ _ _ hne,
      annotStep_get?_ne _ _ _ hne]
  dsimp only
  exact List.getElem?_append_left hr

/-! ## The claims -/

/-- C1: For every well-formed three-segment compact token whose header and
payload segments are the base64url encodings of UTF-8 JSON texts, `decode`
returns a header and a payload equal to the original JSON objects used to
construct those segments. -/
theorem C1_decode_roundtrip (Th Tp sig : String) (h p : Json)
    (hh : Json.parse Th = some h) (hp : Json.parse Tp = some p) :
    decodeToken (b64urlOfText Th ++ "." ++ b64urlOfText Tp ++ "." ++ sig) =
      .ok h p :=
  decodeToken_construct Th Tp sig h p hh hp

/-- C1 witness: the token of the spec's example decodes to header
`alg: HS256` and payload `sub: 1234567890`. -/
theorem C1_decode_roundtrip_witness :
    decodeToken "eyJhbGciOiJIUzI1NiJ9.eyJzdWIiOiIxMjM0NTY3ODkwIn0.signature" =
      .ok (.obj [("alg", .str "HS256")]) (.obj [("sub", .str "1234567890")]) := by
  have h := C1_decode_roundtrip "\x7b\"alg\":\"HS256\"\x7d" "\x7b\"sub\":\"1234567890\"\x7d"
    "signature" (.obj [("alg", .str "HS256")]) (.obj [("sub", .str "1234567890")]) rfl rfl
  exact h

/-- C2: For every token string that lacks a `.` separator, or whose split
on `.` yields fewer than two non-empty segments, the decode logic returns
the malformed-token error and no header/payload pair. -/
theorem C2_malformed (t : String)
    (hc : ('.' ∉ t.data) ∨ ((jsSplit t).filter (fun s => s ≠ "")).length < 2) :
    decodeToken t = .malformed :=
  decodeToken_malformed_of t hc

/-- C2 witness: a dot-free token is malformed. -/
theorem C2_malformed_witness :
    (('.' ∉ ("abc" : String).data) ∨
      ((jsSplit "abc").filter (fun s => s ≠ "")).length < 2) ∧
    decodeToken "abc" = .malformed :=
  ⟨Or.inl (by decide), C2_malformed "abc" (Or.inl (by decide))⟩

/-- C3 counterexample: the claim "Expired iff exp present and exp*1000 <
now" fails at payload `exp: 0`, `now = 1`: the exp is present and in the
past, yet the source's truthiness test `if (payload.exp)` skips the check
and no Expired status results. -/
theorem C3_counterexample :
    checkExpiry (Json.obj [("exp", Json.num 0)]) 1 = .Valid ∧
    (Json.obj [("exp", Json.num 0)]).getField "exp" = some (Json.num 0) ∧
    ((0 : Int) * 1000 < 1) :=
  ⟨rfl, rfl, by decide⟩

/-- C3 (amended): for payloads whose `exp` is absent or numeric,
`checkExpiry` returns `Expired` iff `exp` is present, nonzero,
representable as a Date after scaling to milliseconds, and `exp * 1000 <
now`; it returns `NoExpiry` iff `exp` is absent; and it is monotone in
`now`. -/
theorem C3_checkExpiry_amended (p : Json) (nowMs : Int)
    (hx : p.getField "exp" = none ∨ ∃ e : Int, p.getField "exp" = some (.num e)) :
    ((checkExpiry p nowMs = .Expired) ↔
      (∃ e : Int, p.getField "exp" = some (.num e) ∧ e ≠ 0 ∧
        dateValid (e * 1000) = true ∧ e * 1000 < nowMs)) ∧
    ((checkExpiry p nowMs = .NoExpiry) ↔ p.getField "exp" = none) ∧
    (∀ now2 : Int, nowMs ≤ now2 → checkExpiry p nowMs = .Expired →
      checkExpiry p now2 = .Expired) :=
  ⟨checkExpiry_expired_iff p nowMs, checkExpiry_noExpiry_iff p nowMs,
   fun now2 h12 h => checkExpiry_mono p nowMs now2 h12 h⟩

/-- C3 witness: a payload with `exp: 1` checked at one million
milliseconds is Expired. -/
theorem C3_checkExpiry_amended_witness :
    ((Json.obj [("exp", Json.num 1)]).getField "exp" = none ∨
      ∃ e : Int, (Json.obj [("exp", Json.num 1)]).getField "exp" = some (.num e)) ∧
    checkExpiry (Json.obj [("exp", Json.num 1)]) 1000000 = .Expired := by
  refine ⟨Or.inr ⟨1, rfl⟩, ?_⟩
  exact (C3_checkExpiry_amended (Json.obj [("exp", Json.num 1)]) 1000000
    (Or.inr ⟨1, rfl⟩)).1.mpr ⟨1, rfl, by decide, by decide, by decide⟩

/-- C4 counterexample: a well-formed token whose payload carries the past
`exp: 0` decodes with NO expiry warning surfaced (the error slot stays
empty), contradicting "the expiry is surfaced as a separate advisory
warning". -/
theorem C4_counterexample :
    decodeTokenFull ⟨fun _ _ => true⟩ "eyJleHAiOjB9.eyJleHAiOjB9.x" "" 1000 =
      { error := none, decodedHeader := some (.obj [("exp", .num 0)]),
        decodedPayload := some (.obj [("exp", .num 0)]), signatureStatus := none } ∧
    ((0 : Int) * 1000 < 1000) :=
  ⟨rfl, by decide⟩

/-- C4 (amended): for every well-formed token whose payload carries a
nonzero, Date-representable `exp` in the past, decode still succeeds and
delivers the header and payload, and the expiry warning is surfaced as the
separate advisory error message — never as a decode failure. -/
theorem C4_expired_still_decoded (o : SigOracle) (Th Tp sig jwks : String)
    (h p : Json) (nowMs : Int)
    (hh : Json.parse Th = some h) (hp : Json.parse Tp = some p)
    (hexp : ∃ e : Int, p.getField "exp" = some (.num e) ∧ e ≠ 0 ∧
      dateValid (e * 1000) = true ∧ e * 1000 < nowMs) :
    (decodeTokenFull o (b64urlOfText Th ++ "." ++ b64urlOfText Tp ++ "." ++ sig)
        jwks nowMs).decodedHeader = some h ∧
    (decodeTokenFull o (b64urlOfText Th ++ "." ++ b64urlOfText Tp ++ "." ++ sig)
        jwks nowMs).decodedPayload = some p ∧
    (decodeTokenFull o (b64urlOfText Th ++ "." ++ b64urlOfText Tp ++ "." ++ sig)
        jwks nowMs).error = some .expiredWarning := by
  have hok := decodeToken_construct Th Tp sig h p hh hp
  have hfull := decodeTokenFull_ok o _ jwks nowMs h p hok
  rw [hfull]
  have hexp2 : checkExpiry p nowMs = .Expired :=
    (checkExpiry_expired_iff p nowMs).mpr hexp
  simp [hexp2]

/-- C4 witness: a token with payload `exp: 1` at `now = 1000000` ms is
decoded with its payload delivered and the warning surfaced. -/
theorem C4_expired_still_decoded_witness :
    Json.parse "\x7b\"exp\":1\x7d" = some (Json.obj [("exp", Json.num 1)]) ∧
    (decodeTokenFull ⟨fun _ _ => true⟩
        (b64urlOfText "\x7b\"alg\":\"RS256\"\x7d" ++ "." ++
          b64urlOfText "\x7b\"exp\":1\x7d" ++ "." ++ "x") "" 1000000).error =
      some .expiredWarning := by
  refine ⟨rfl, ?_⟩
  exact (C4_expired_still_decoded ⟨fun _ _ => true⟩ "\x7b\"alg\":\"RS256\"\x7d"
    "\x7b\"exp\":1\x7d" "x" "" (Json.obj [("alg", Json.str "RS256")])
    (Json.obj [("exp", Json.num 1)]) 1000000 rfl rfl
    ⟨1, rfl, by decide, by decide, by decide⟩).2.2

/-- C5: For every token whose protected header declares an algorithm
outside the allow-list (for example HS256 or `none`), verification returns
the algorithm-not-allowed outcome regardless of the oracle and of the key
set's keys — even if a matching key exists. -/
theorem C5_unsupported_algorithm (o : SigOracle) (ksText token : String)
    (nowSec : Int) (ks : Json) (keys : List Json) (t1 t2 t3 hTxt : String)
    (hJson : Json) (alg : String)
    (hks : Json.parse ksText = some ks)
    (harr : ks.getField "keys" = some (.arr keys))
    (hsplit : jsSplit token = [t1, t2, t3])
    (hdec : base64URLDecode t1 = some hTxt)
    (hparse : Json.parse hTxt = some hJson)
    (halg : hJson.getField "alg" = some (.str alg))
    (hne : alg ≠ "")
    (hnin : alg ∉ allowedAlgorithms) :
    parseAndVerifyJwks o ksText token nowSec =
      ⟨false, .failure (.jose (.algNotAllowed alg))⟩ := by
  have hver : jwtVerify o token keys nowSec = .error (.algNotAllowed alg) := by
    unfold jwtVerify
    rw [hsplit]
    dsimp only
    rw [hdec]
    dsimp only
    rw [hparse]
    dsimp only
    rw [halg]
    dsimp only
    rw [if_neg hne, if_pos hnin]
  unfold parseAndVerifyJwks
  rw [hks]
  dsimp only
  rw [harr]
  dsimp only
  rw [hver]

/-- C5 witness: an HS256 token against a well-formed empty key set. -/
theorem C5_unsupported_algorithm_witness :
    ("HS256" ∉ allowedAlgorithms) ∧
    parseAndVerifyJwks ⟨fun _ _ => true⟩ "\x7b\"keys\":[]\x7d"
      "eyJhbGciOiJIUzI1NiJ9.eyJzdWIiOiIxMjM0NTY3ODkwIn0.signature" 0 =
      ⟨false, .failure (.jose (.algNotAllowed "HS256"))⟩ := by
  refine ⟨by decide, ?_⟩
  exact C5_unsupported_algorithm ⟨fun _ _ => true⟩ _ _ 0
    (Json.obj [("keys", Json.arr [])]) [] "eyJhbGciOiJIUzI1NiJ9"
    "eyJzdWIiOiIxMjM0NTY3ODkwIn0" "signature" "\x7b\"alg\":\"HS256\"\x7d"
    (Json.obj [("alg", Json.str "HS256")]) "HS256" rfl rfl rfl rfl rfl rfl
    (by decide) (by decide)

/-- C6: For every key-set text that does not parse as JSON, or whose parse
result lacks an array-valued `keys` field, verification returns the
distinct invalid-key-set outcome, for every token and oracle. -/
theorem C6_invalid_keyset (o : SigOracle) (ksText token : String) (nowSec : Int)
    (hbad : ∀ j, Json.parse ksText = some j →
      ∀ keys : List Json, j.getField "keys" ≠ some (.arr keys)) :
    parseAndVerifyJwks o ksText token nowSec = ⟨false, .failure .invalidKeySet⟩ := by
  unfold parseAndVerifyJwks
  cases hks : Json.parse ksText with
  | none => rfl
  | some j =>
    dsimp only
    cases hk : j.getField "keys" with
    | none => rfl
    | some v =>
      cases v with
      | arr keys => exact absurd hk (hbad j hks keys)
      | null => rfl
      | bool b => rfl
      | num n => rfl
      | str s => rfl
      | obj fs => rfl

/-- C6 witness: the key-set text of the spec's example, the empty JSON
object, yields the invalid-key-set outcome. -/
theorem C6_invalid_keyset_witness :
    parseAndVerifyJwks ⟨fun _ _ => true⟩ "\x7b\x7d" "x.y.z" 0 =
      ⟨false, .failure .invalidKeySet⟩ := by
  apply C6_invalid_keyset
  intro j hj keys hk
  rw [show Json.parse "\x7b\x7d" = some (Json.obj []) from rfl] at hj
  injection hj with hj2
  rw [← hj2] at hk
  exact Option.noConfusion hk

/-- C7: Whenever the verification routine succeeds, the verifier returns a
verified status carrying the algorithm name from the protected header and
the header's key identifier, substituting the sentinel `none` when the
header carried no `kid` (and rendering a non-empty string `kid`
verbatim). -/
theorem C7_verified_carries (o : SigOracle) (ksText token : String) (nowSec : Int)
    (ks : Json) (keys : List Json) (p h : Json)
    (hks : Json.parse ksText = some ks)
    (harr : ks.getField "keys" = some (.arr keys))
    (hver : jwtVerify o token keys nowSec = .ok (p, h)) :
    parseAndVerifyJwks o ksText token nowSec =
      ⟨true, .success (algDisplay h) (kidDisplay h)⟩ ∧
    (h.getField "kid" = none → kidDisplay h = "none") ∧
    (∀ k : String, h.getField "kid" = some (.str k) → k ≠ "" → kidDisplay h = k) := by
  refine ⟨?_, ?_, ?_⟩
  · unfold parseAndVerifyJwks
    rw [hks]
    dsimp only
    rw [harr]
    dsimp only
    rw [hver]
  · intro hk
    unfold kidDisplay
    rw [hk]
  · intro k hk hkne
    unfold kidDisplay
    rw [hk]
    simp [jsTruthy, jsDisplay, hkne]

/-- C7 witness: an RS256 token verified against a matching RSA key with an
always-accepting oracle carries algorithm RS256 and kid sentinel none. -/
theorem C7_verified_carries_witness :
    parseAndVerifyJwks ⟨fun _ _ => true⟩ "\x7b\"keys\":[\x7b\"kty\":\"RSA\"\x7d]\x7d"
      (b64urlOfText "\x7b\"alg\":\"RS256\"\x7d" ++ "." ++
        b64urlOfText "\x7b\"sub\":\"x\"\x7d" ++ "." ++ "sig") 0 =
      ⟨true, .success "RS256" "none"⟩ := by
  have h := (C7_verified_carries ⟨fun _ _ => true⟩
    "\x7b\"keys\":[\x7b\"kty\":\"RSA\"\x7d]\x7d"
    (b64urlOfText "\x7b\"alg\":\"RS256\"\x7d" ++ "." ++
      b64urlOfText "\x7b\"sub\":\"x\"\x7d" ++ "." ++ "sig") 0
    (Json.obj [("keys", Json.arr [Json.obj [("kty", Json.str "RSA")]])])
    [Json.obj [("kty", Json.str "RSA")]]
    (Json.obj [("sub", Json.str "x")]) (Json.obj [("alg", Json.str "RS256")])
    rfl rfl rfl).1
  exact h

/-- C8: Producing the display annotation of the temporal claims leaves the
underlying decoded payload object unchanged on the heap: the formatter
spread-copies the payload and mutates only the copy, so the original
object at reference `r` is identical after the helper runs. -/
theorem C8_format_frame (fmt : Int → String) (h : JsHeap) (r : Nat)
    (hr : r < h.objs.length) :
    ((formatPayloadSteps fmt h r).1).objs[r]? = h.objs[r]? :=
  formatPayloadSteps_frame fmt h r hr

/-- C8 witness: a one-object heap holding a payload with `exp` and `sub`
is unchanged at its original reference. -/
theorem C8_format_frame_witness :
    0 < (JsHeap.mk [[("exp", Json.num 1), ("sub", Json.str "x")]]).objs.length ∧
    ((formatPayloadSteps (fun _ => "")
        ⟨[[("exp", Json.num 1), ("sub", Json.str "x")]]⟩ 0).1).objs[0]? =
      (JsHeap.mk [[("exp", Json.num 1), ("sub", Json.str "x")]]).objs[0]? :=
  ⟨by decide, C8_format_frame (fun _ => "") ⟨[[("exp", Json.num 1), ("sub", Json.str "x")]]⟩ 0 (by decide)⟩

/-- C9: If decoding fails, no header or payload is delivered and
verification is never attempted (no status, and the outcome is independent
of the oracle); if decoding succeeds, the decoded header and payload are
delivered regardless of the verification outcome, which is reported
alongside them when key-set text is present. -/
theorem C9_pipeline_independence (o o2 : SigOracle) (token jwksText : String)
    (nowMs : Int) :
    (∀ h p, decodeToken token = .ok h p →
      (decodeTokenFull o token jwksText nowMs).decodedHeader = some h ∧
      (decodeTokenFull o token jwksText nowMs).decodedPayload = some p ∧
      (jsTrimEmpty jwksText = false →
        (decodeTokenFull o token jwksText nowMs).signatureStatus =
          some (parseAndVerifyJwks o jwksText token (nowMs.fdiv 1000)))) ∧
    ((∀ h p, decodeToken token ≠ .ok h p) →
      (decodeTokenFull o token jwksText nowMs).decodedHeader = none ∧
      (decodeTokenFull o token jwksText nowMs).decodedPayload = none ∧
      (decodeTokenFull o token jwksText nowMs).signatureStatus = none ∧
      decodeTokenFull o token jwksText nowMs = decodeTokenFull o2 token jwksText nowMs) := by
  constructor
  · intro h p hok
    rw [decodeTokenFull_ok o token jwksText nowMs h p hok]
    refine ⟨rfl, rfl, ?_⟩
    intro hjw
    simp [hjw]
  · intro herr
    obtain ⟨h1, h2, h3⟩ := decodeTokenFull_err o token jwksText nowMs herr
    exact ⟨h1, h2, h3, decodeTokenFull_oracle_indep o o2 token jwksText nowMs herr⟩

/-- C9 witness: a decodable token with a trivial key set still delivers
its header. -/
theorem C9_pipeline_independence_witness :
    decodeToken "eyJhbGciOiJIUzI1NiJ9.eyJzdWIiOiIxMjM0NTY3ODkwIn0.sig" =
      .ok (.obj [("alg", .str "HS256")]) (.obj [("sub", .str "1234567890")]) ∧
    (decodeTokenFull ⟨fun _ _ => true⟩
        "eyJhbGciOiJIUzI1NiJ9.eyJzdWIiOiIxMjM0NTY3ODkwIn0.sig" "\x7b\x7d" 0).decodedHeader =
      some (.obj [("alg", .str "HS256")]) := by
  refine ⟨rfl, ?_⟩
  exact ((C9_pipeline_independence ⟨fun _ _ => true⟩ ⟨fun _ _ => false⟩
    "eyJhbGciOiJIUzI1NiJ9.eyJzdWIiOiIxMjM0NTY3ODkwIn0.sig" "\x7b\x7d" 0).1
    (.obj [("alg", .str "HS256")]) (.obj [("sub", .str "1234567890")]) rfl).1

/-- C10: The decode outcome depends only on the first two period-separated
segments: two tokens whose split yields identical header and payload
segments decode identically — same header, payload, error and expiry
status — regardless of the signature segment or any further segments. -/
theorem C10_first_two_segments_determine (t1 t2 : String)
    (h : jsFirstTwo t1 = jsFirstTwo t2) :
    decodeToken t1 = decodeToken t2 ∧
    (∀ (o : SigOracle) (nowMs : Int),
      decodeTokenFull o t1 "" nowMs = decodeTokenFull o t2 "" nowMs) := by
  constructor
  · unfold decodeToken
    rw [h]
  · intro o nowMs
    exact decodeTokenFull_empty_jwks_eq o t1 t2 nowMs h

/-- C10 witness: tokens sharing the first two segments but differing after
them decode identically. -/
theorem C10_first_two_segments_determine_witness :
    jsFirstTwo "a.b.c" = jsFirstTwo "a.b.d.e" ∧
    decodeToken "a.b.c" = decodeToken "a.b.d.e" :=
  ⟨rfl, (C10_first_two_segments_determine "a.b.c" "a.b.d.e" rfl).1⟩
